import Mathlib

/-!
Verification of the TasteBuddy backend core against its specification.

The Go source (`backend/serve.go`, `backend/discounts.go`) is shallowly
embedded below: MongoDB collections become Lean lists in storage iteration
order, `primitive.ObjectID` becomes `Nat` (with `0` as the zero ObjectID),
Go maps built by iteration become folds over association structures, and
fallible operations return `Option`/pairs carrying an optional error.
Definitions marked `Modelled from the spec:` stand for repository code that
is not part of the provided sources (items/markets collection helpers).
-/

namespace TasteBuddy

/-- Embeds Go struct `Item` (serve.go): ID, Name, Type, ImgUrl. -/
structure Item where
  id : Nat
  name : String
  type : String
  imgUrl : String
deriving DecidableEq, Repr, Inhabited

/-- The Go zero value `Item{}`, produced by a map access with a missing key. -/
def emptyItem : Item := { id := 0, name := "", type := "", imgUrl := "" }

/-- Modelled from the spec: `GetItemQuality` (the Identity Scorer) is not in
the provided sources; per §4.1 it counts the populated optional attributes
of an item (type set, image set). -/
def Item.GetItemQuality (item : Item) : Int :=
  (if item.type = "" then 0 else 1) + (if item.imgUrl = "" then 0 else 1)

/-- Embeds Go struct `StepItem` (serve.go): ItemID, Amount, Unit, Item. -/
structure StepItem where
  itemID : Nat
  amount : Int
  unit : String
  item : Item
deriving DecidableEq, Repr

/-- Embeds Go structs `AdditionalStepInformation` and the inlined
`BakingStepInformation` (serve.go). -/
structure AdditionalStepInformation where
  type : String
  temperature : Int
  bakingType : String
deriving DecidableEq, Repr

/-- Embeds Go struct `Step` (serve.go). -/
structure Step where
  description : String
  items : List StepItem
  imgUrl : String
  duration : Int
  additional : Option AdditionalStepInformation
deriving DecidableEq, Repr

/-- Embeds the anonymous `Props` struct of Go struct `Recipe` (serve.go);
`createdAt` models `time.Time` as a numeric timestamp. -/
structure RecipeProps where
  url : String
  imgUrl : String
  duration : Int
  createdAt : Nat
  tags : List String
  likes : Int
deriving DecidableEq, Repr

/-- Embeds Go struct `Recipe` (serve.go). -/
structure Recipe where
  id : Nat
  name : String
  author : String
  description : String
  items : List StepItem
  steps : List Step
  props : RecipeProps
  deleted : Bool
deriving DecidableEq, Repr

/-- The `itemsMap` built by `MapItemIdsToItem` (serve.go:292-295):
`itemsMap[items[i].ID] = items[i]`, later entries overwriting earlier ones. -/
def buildItemsById (items : List Item) : Nat → Option Item :=
  items.foldl (fun m it => fun k => if k = it.id then some it else m k) (fun _ => none)

/-- One step-item hydration of `MapItemIdsToItem` (serve.go:300): the Go map
access `itemsMap[ItemID]` yields the zero `Item{}` when the key is absent. -/
def hydrateStepItem (itemsMap : Nat → Option Item) (si : StepItem) : StepItem :=
  { si with item := (itemsMap si.itemID).getD emptyItem }

/-- The inner loop of `MapItemIdsToItem` over one step's items (serve.go:299-301). -/
def hydrateStep (itemsMap : Nat → Option Item) (st : Step) : Step :=
  { st with items := st.items.map (hydrateStepItem itemsMap) }

/-- Embeds `Recipe.MapItemIdsToItem` (serve.go:290-303): replaces each
step item's embedded `Item` by the stored item with its `ItemID`. -/
def MapItemIdsToItem (items : List Item) (recipe : Recipe) : Recipe :=
  { recipe with steps := recipe.steps.map (hydrateStep (buildItemsById items)) }

/-- The read-path hydration applied to every recipe (serve.go:283-285). -/
def hydrateRecipes (items : List Item) (recipes : List Recipe) : List Recipe :=
  recipes.map (MapItemIdsToItem items)

/-- Embeds `GetAllRecipes` (serve.go:256-288): the Mongo filter
`deleted $ne true` keeps exactly the recipes whose flag is not set, then
every result is hydrated against the items collection. -/
def GetAllRecipes (store : List Recipe) (items : List Item) : List Recipe :=
  (store.filter (fun r => !r.deleted)).map (MapItemIdsToItem items)

/-- Embeds `GetRecipeById` (serve.go:305-320): `FindOne` on `_id` only;
`none` models the error return when no document matches. -/
def GetRecipeById (store : List Recipe) (id : Nat) : Option Recipe :=
  store.find? (fun r => r.id == id)

/-- Embeds `DeleteRecipeById` (serve.go:358-368): `UpdateByID` sets
`deleted: true` on the document with the given `_id` (ids are the Mongo
primary key, so at most one stored recipe matches). -/
def DeleteRecipeById (store : List Recipe) (id : Nat) : List Recipe :=
  store.map (fun r => if r.id == id then { r with deleted := true } else r)

/-- One iteration of the `itemMap` construction in `CleanUpItemsInRecipes`
(serve.go:439-452): a name already in the map is replaced only when the new
item has strictly higher quality; otherwise the first-encountered item stays. -/
def updateItemMap (m : String → Option Item) (item : Item) : String → Option Item :=
  match m item.name with
  | some itemFromMap =>
      if item.GetItemQuality > itemFromMap.GetItemQuality then
        fun n => if n = item.name then some item else m n
      else m
  | none => fun n => if n = item.name then some item else m n

/-- The map of the "best" item for each name (serve.go:437-452), built by
iterating over the items collection in storage order. -/
def buildItemMap (items : List Item) : String → Option Item :=
  items.foldl updateItemMap (fun _ => none)

/-- One step-item rewrite of the clean-up loop (serve.go:464-473): when the
map has an entry for the embedded item's name, the reference is rewritten to
it and `amountCleanedUp` is incremented; otherwise the step item is untouched. -/
def cleanUpStepItem (itemMap : String → Option Item) (si : StepItem) : StepItem × Nat :=
  match itemMap si.item.name with
  | some item => ({ si with item := item, itemID := item.id }, 1)
  | none => (si, 0)

/-- The clean-up loop over one step's items (serve.go:464-474), returning
the rewritten items and the number of counted rewrites. -/
def cleanUpStepItems (itemMap : String → Option Item) : List StepItem → List StepItem × Nat
  | [] => ([], 0)
  | si :: rest =>
      ((cleanUpStepItem itemMap si).fst :: (cleanUpStepItems itemMap rest).fst,
       (cleanUpStepItem itemMap si).snd + (cleanUpStepItems itemMap rest).snd)

/-- The clean-up loop over one recipe's step (serve.go:463-475). -/
def cleanUpStep (itemMap : String → Option Item) (st : Step) : Step × Nat :=
  ({ st with items := (cleanUpStepItems itemMap st.items).fst },
   (cleanUpStepItems itemMap st.items).snd)

/-- The clean-up loop over a recipe's steps (serve.go:463-475). -/
def cleanUpSteps (itemMap : String → Option Item) : List Step → List Step × Nat
  | [] => ([], 0)
  | st :: rest =>
      ((cleanUpStep itemMap st).fst :: (cleanUpSteps itemMap rest).fst,
       (cleanUpStep itemMap st).snd + (cleanUpSteps itemMap rest).snd)

/-- The clean-up of one recipe (serve.go:462-475). -/
def cleanUpRecipe (itemMap : String → Option Item) (recipe : Recipe) : Recipe × Nat :=
  ({ recipe with steps := (cleanUpSteps itemMap recipe.steps).fst },
   (cleanUpSteps itemMap recipe.steps).snd)

/-- The clean-up loop over all recipes (serve.go:461-475), accumulating
`amountCleanedUp`. -/
def cleanUpRecipes (itemMap : String → Option Item) : List Recipe → List Recipe × Nat
  | [] => ([], 0)
  | r :: rest =>
      ((cleanUpRecipe itemMap r).fst :: (cleanUpRecipes itemMap rest).fst,
       (cleanUpRecipe itemMap r).snd + (cleanUpRecipes itemMap rest).snd)

/-- The rewrite phase of `CleanUpItemsInRecipes` (serve.go:425-487): build
the best-item-per-name map from the items collection, then rewrite every
step item of every (already hydrated) recipe, returning the rewritten
recipes and the `amountCleanedUp` counter. -/
def CleanUpItemsInRecipes (items : List Item) (recipes : List Recipe) : List Recipe × Nat :=
  cleanUpRecipes (buildItemMap items) recipes

/-- The write-back loop of `CleanUpItemsInRecipes` (serve.go:477-482):
`AddOrUpdateRecipe` is attempted recipe by recipe (`persist r = true` models
a successful write); on the first failure the function returns that error
at once. The result is the list of successfully written recipes together
with the recipe whose write failed, if any. -/
def writeBackRecipes (persist : Recipe → Bool) : List Recipe → List Recipe × Option Recipe
  | [] => ([], none)
  | r :: rest =>
      if persist r then
        let (ws, failure) := writeBackRecipes persist rest
        (r :: ws, failure)
      else ([], some r)

/-- The canonical-selection fold over one name bucket: starting from the
first-encountered item, each later item replaces the current best exactly
when its quality is strictly higher (serve.go:441-451). -/
def selectCanonical (first : Item) (rest : List Item) : Item :=
  rest.foldl (fun best it => if it.GetItemQuality > best.GetItemQuality then it else best) first

/-- Embeds Go struct `Discount` (discounts.go). -/
structure Discount where
  id : Nat
  title : String
  price : String
  imageUrl : String
  validUntil : Int
  marketName : String
  internalMarketId : String
  tags : List String
deriving DecidableEq, Repr

/-- The upsert filter of `AddDiscounts` (discounts.go:138): a stored
discount matches on the pair (internalMarketId, title). -/
def matchKey (s d : Discount) : Bool :=
  s.internalMarketId == d.internalMarketId && s.title == d.title

/-- The effect of `$set` with the full new discount on a stored document
(discounts.go:138): every payload field is overwritten; `_id` carries the
bson `omitempty` tag, so a zero id is not part of the update and the stored
id survives. -/
def setDiscount (stored d : Discount) : Discount :=
  { d with id := if d.id == 0 then stored.id else d.id }

/-- One `UpdateOne(..., upsert: true)` of `AddDiscounts` (discounts.go:138):
the first stored document matching (internalMarketId, title) is updated in
place; with no match the discount is inserted. -/
def upsertDiscount : List Discount → Discount → List Discount
  | [], d => [d]
  | s :: rest, d =>
      if matchKey s d then setDiscount s d :: rest
      else s :: upsertDiscount rest d

/-- Embeds `AddDiscounts` (discounts.go:128-144): upserts each discount in
order (write failures are outside this pure model). -/
def AddDiscounts (store : List Discount) (discounts : List Discount) : List Discount :=
  discounts.foldl upsertDiscount store

/-- Number of stored discounts matching a discount's (market, title) key. -/
def countKey (store : List Discount) (d : Discount) : Nat :=
  (store.filter (fun s => matchKey s d)).length

/-- One iteration of the dedup loop of `GetDiscountsByCity`
(discounts.go:86-91): a discount is recorded under its title only when the
title has no entry yet; the Go map is modelled as an association list in
insertion order. -/
def dedupStep (m : List (String × Discount)) (d : Discount) : List (String × Discount) :=
  if (m.lookup d.title).isSome then m else m ++ [(d.title, d)]

/-- The dedup-by-title stage of `GetDiscountsByCity` (discounts.go:83-96):
build the title map over the fetched discounts, then return its values. -/
def dedupByTitle (discounts : List Discount) : List Discount :=
  (discounts.foldl dedupStep []).map Prod.snd

/-- Modelled from the spec: `Market` (markets code is not in the provided
sources) — a physical retail location with identifier, city and distributor
tag (§3). -/
structure Market where
  id : String
  city : String
  distributor : String
deriving DecidableEq, Repr

/-- Modelled from the spec: `GetAllMarketIDsByCity` (markets code is not in
the provided sources) resolves the identifiers of all markets located in the
city (§4.5 step 1). -/
def GetAllMarketIDsByCity (markets : List Market) (city : String) : List String :=
  (markets.filter (fun m => m.city == city)).map (fun m => m.id)

/-- Embeds `GetDiscountsByCity` (discounts.go:60-100): resolve the city's
market ids (error `"No markets found for <city>"` with an empty list when
none exist), fetch the stored discounts of those markets (`$in` filter, in
storage order), and dedup them by title. The Go `([]Discount, error)` pair
is modelled literally. -/
def GetDiscountsByCity (markets : List Market) (store : List Discount)
    (city : String) : List Discount × Option String :=
  let marketIds := GetAllMarketIDsByCity markets city
  if marketIds.length = 0 then
    ([], some ("No markets found for " ++ city))
  else
    let discounts := store.filter (fun d => marketIds.contains d.internalMarketId)
    (dedupByTitle discounts, none)

/-- Embeds `GetDiscountsByCityFromAPI` (discounts.go:147-163): when market
resolution fails the result is empty; otherwise each market's fetch
(`GetDiscountsFromAPI`, an external adapter modelled as the `fetch`
parameter) is attempted in turn, a failing fetch is skipped (`continue`),
and successful results are appended. -/
def GetDiscountsByCityFromAPI (getMarkets : Except String (List Market))
    (fetch : Market → Except String (List Discount)) : List Discount :=
  match getMarkets with
  | .error _ => []
  | .ok markets =>
      markets.foldl
        (fun acc m =>
          match fetch m with
          | .error _ => acc
          | .ok ds => acc ++ ds)
        []

/-- Embeds the frontend `ItemQuery` type (types.ts:765-768): both fields are
optional, `none` modelling the JavaScript `undefined`. -/
structure ItemQuery where
  id : Option String
  exclude : Option Bool
deriving DecidableEq, Repr

/-- Models the key set of `computed.itemsById` of the frontend `Recipe`
class (types.ts), the only part of that class `hasItem` reads. -/
structure FrontendRecipe where
  itemIds : List String
deriving DecidableEq, Repr

/-- Embeds `Recipe.hasItem` (types.ts:607-609): true iff the queried id is
defined and has an entry in `computed.itemsById`. -/
def hasItem (recipe : FrontendRecipe) (id : Option String) : Bool :=
  match id with
  | none => false
  | some s => recipe.itemIds.contains s

/-- Embeds `filterRecipeByItems` (types.ts:873-883): every query entry must
satisfy the JavaScript strict inequality `itemExists !== itemQ.exclude`,
where `exclude` may be `undefined`; strict inequality against `undefined`
is always true. -/
def filterRecipeByItems (recipe : FrontendRecipe) (itemQuery : List ItemQuery) : Bool :=
  itemQuery.all (fun itemQ => some (hasItem recipe itemQ.id) != itemQ.exclude)

/-! ## Canonical representative selection (claim C3) -/

theorem selCons_pos (f x : Item) (rest : List Item) (h : x.GetItemQuality > f.GetItemQuality) :
    selectCanonical f (x :: rest) = selectCanonical x rest := by
  simp [selectCanonical, h]

theorem selCons_neg (f x : Item) (rest : List Item) (h : ¬(x.GetItemQuality > f.GetItemQuality)) :
    selectCanonical f (x :: rest) = selectCanonical f rest := by
  simp [selectCanonical, h]

theorem selectCanonical_le : ∀ (r : List Item) (f : Item),
    ∀ it ∈ f :: r, it.GetItemQuality ≤ (selectCanonical f r).GetItemQuality := by
  intro r
  induction r with
  | nil =>
    intro f it hit
    simp at hit
    simp [selectCanonical, hit]
  | cons x rest ih =>
    intro f it hit
    simp only [List.mem_cons] at hit
    by_cases hxf : x.GetItemQuality > f.GetItemQuality
    · rw [selCons_pos f x rest hxf]
      have hx : x.GetItemQuality ≤ (selectCanonical x rest).GetItemQuality :=
        ih x x (List.mem_cons_self _ _)
      rcases hit with rfl | rfl | h
      · omega
      · exact hx
      · exact ih x it (List.mem_cons_of_mem _ h)
    · rw [selCons_neg f x rest hxf]
      have hf : f.GetItemQuality ≤ (selectCanonical f rest).GetItemQuality :=
        ih f f (List.mem_cons_self _ _)
      rcases hit with rfl | rfl | h
      · exact hf
      · omega
      · exact ih f it (List.mem_cons_of_mem _ h)

theorem selectCanonical_firstmax : ∀ (r : List Item) (f : Item),
    (f :: r).find? (fun it => it.GetItemQuality == (selectCanonical f r).GetItemQuality)
      = some (selectCanonical f r) := by
  intro r
  induction r with
  | nil => intro f; simp [selectCanonical]
  | cons x rest ih =>
    intro f
    by_cases hxf : x.GetItemQuality > f.GetItemQuality
    · rw [selCons_pos f x rest hxf]
      have hxs : x.GetItemQuality ≤ (selectCanonical x rest).GetItemQuality :=
        selectCanonical_le rest x x (List.mem_cons_self _ _)
      rw [List.find?_cons_of_neg _ (by simp; omega)]
      exact ih x
    · rw [selCons_neg f x rest hxf]
      have hfle : f.GetItemQuality ≤ (selectCanonical f rest).GetItemQuality :=
        selectCanonical_le rest f f (List.mem_cons_self _ _)
      have ihf := ih f
      by_cases hfq : f.GetItemQuality = (selectCanonical f rest).GetItemQuality
      · rw [List.find?_cons_of_pos _ (by simp [hfq])] at ihf ⊢
        exact ihf
      · rw [List.find?_cons_of_neg _ (by simp; omega)]
        rw [List.find?_cons_of_neg _ (by simp; omega)]
        rw [List.find?_cons_of_neg _ (by simp; omega)] at ihf
        exact ihf

theorem selectCanonical_mem : ∀ (r : List Item) (f : Item), selectCanonical f r ∈ f :: r := by
  intro r
  induction r with
  | nil => intro f; simp [selectCanonical]
  | cons x rest ih =>
    intro f
    by_cases hxf : x.GetItemQuality > f.GetItemQuality
    · rw [selCons_pos f x rest hxf]
      exact List.mem_cons_of_mem _ (ih x)
    · rw [selCons_neg f x rest hxf]
      have := ih f
      simp only [List.mem_cons] at this ⊢
      tauto

/-- Running one name bucket through the map-update sequence, starting from
the current map entry for that name. -/
def bucketRun : Option Item → List Item → Option Item
  | acc, [] => acc
  | none, it :: rest => bucketRun (some it) rest
  | some b, it :: rest =>
      bucketRun (some (if it.GetItemQuality > b.GetItemQuality then it else b)) rest

theorem bucketRun_some : ∀ (l : List Item) (b : Item),
    bucketRun (some b) l = some (selectCanonical b l) := by
  intro l
  induction l with
  | nil => intro b; simp [bucketRun, selectCanonical]
  | cons x rest ih =>
    intro b
    by_cases h : x.GetItemQuality > b.GetItemQuality
    · rw [selCons_pos b x rest h]
      simp only [bucketRun, if_pos h]
      exact ih x
    · rw [selCons_neg b x rest h]
      simp only [bucketRun, if_neg h]
      exact ih b

theorem foldl_updateItemMap : ∀ (l : List Item) (m : String → Option Item) (name : String),
    (l.foldl updateItemMap m) name = bucketRun (m name) (l.filter (fun it => it.name == name)) := by
  intro l
  induction l with
  | nil => intro m name; simp [bucketRun]
  | cons i rest ih =>
    intro m name
    rw [List.foldl_cons, ih]
    by_cases hn : i.name = name
    · have hf : (i :: rest).filter (fun it => it.name == name)
          = i :: rest.filter (fun it => it.name == name) := by
        simp [List.filter_cons, hn]
      rw [hf]
      have hupd : (updateItemMap m i) name
          = match m name with
            | none => some i
            | some b => some (if i.GetItemQuality > b.GetItemQuality then i else b) := by
        unfold updateItemMap
        subst hn
        cases hm : m i.name with
        | none => simp [hm]
        | some b =>
          by_cases hq : i.GetItemQuality > b.GetItemQuality
          · simp [hm, hq]
          · simp [hm, hq]
      rw [hupd]
      cases hm : m name with
      | none => simp [bucketRun]
      | some b => simp [bucketRun]
    · have hf : (i :: rest).filter (fun it => it.name == name)
          = rest.filter (fun it => it.name == name) := by
        simp [List.filter_cons, hn]
      rw [hf]
      have hupd : (updateItemMap m i) name = m name := by
        unfold updateItemMap
        cases hm : m i.name with
        | none =>
          simp only []
          rw [if_neg (fun h => hn h.symm)]
        | some b =>
          by_cases hq : i.GetItemQuality > b.GetItemQuality
          · simp only [if_pos hq]
            rw [if_neg (fun h => hn h.symm)]
          · simp [hq]
      rw [hupd]

theorem buildItemMap_bucket (items : List Item) (name : String) :
    buildItemMap items name = bucketRun none (items.filter (fun it => it.name == name)) := by
  unfold buildItemMap
  exact foldl_updateItemMap items (fun _ => none) name

/-- C3: within each bucket of items sharing an exact name, the canonical
representative chosen by `CleanUpItemsInRecipes`'s item map is the item with
the strictly highest Identity Score, and on ties the first-encountered item
in iteration order: the chosen item attains the maximal score of the bucket
and is the first bucket member to do so. -/
theorem buildItemMap_selects_first_max (items : List Item) (name : String)
    (f : Item) (r : List Item)
    (hb : items.filter (fun it => it.name == name) = f :: r) :
    buildItemMap items name = some (selectCanonical f r) ∧
    (f :: r).find? (fun it => it.GetItemQuality == (selectCanonical f r).GetItemQuality)
      = some (selectCanonical f r) ∧
    ∀ it ∈ f :: r, it.GetItemQuality ≤ (selectCanonical f r).GetItemQuality := by
  refine ⟨?_, selectCanonical_firstmax r f, selectCanonical_le r f⟩
  rw [buildItemMap_bucket, hb]
  simpa [bucketRun] using bucketRun_some r f

/-! ## Properties of the item maps -/

theorem buildItemMap_mem_name (items : List Item) (name : String) (it : Item)
    (h : buildItemMap items name = some it) : it ∈ items ∧ it.name = name := by
  rw [buildItemMap_bucket] at h
  cases hfil : items.filter (fun i => i.name == name) with
  | nil => rw [hfil] at h; simp [bucketRun] at h
  | cons f r =>
    rw [hfil] at h
    have hrun : bucketRun none (f :: r) = some (selectCanonical f r) := by
      simpa [bucketRun] using bucketRun_some r f
    rw [hrun] at h
    have hmem : it ∈ f :: r := by
      rw [← Option.some_inj.mp h]
      exact selectCanonical_mem r f
    rw [← hfil] at hmem
    have := List.mem_filter.mp hmem
    exact ⟨this.1, by simpa using this.2⟩

theorem buildItemMap_fix (items : List Item) (name : String) (it : Item)
    (h : buildItemMap items name = some it) : buildItemMap items it.name = some it := by
  rw [(buildItemMap_mem_name items name it h).2]
  exact h

theorem idFoldl_untouched : ∀ (l : List Item) (m : Nat → Option Item) (k : Nat),
    (∀ y ∈ l, y.id ≠ k) →
    (l.foldl (fun m it => fun k => if k = it.id then some it else m k) m) k = m k := by
  intro l
  induction l with
  | nil => intro m k _; rfl
  | cons x rest ih =>
    intro m k hk
    rw [List.foldl_cons, ih _ k (fun y hy => hk y (List.mem_cons_of_mem _ hy))]
    have : k ≠ x.id := fun h => hk x (List.mem_cons_self _ _) h.symm
    simp [this]

theorem buildItemsById_none (items : List Item) (k : Nat)
    (h : ∀ it ∈ items, it.id ≠ k) : buildItemsById items k = none := by
  unfold buildItemsById
  rw [idFoldl_untouched items _ k h]

theorem idFoldl_of_mem : ∀ (l : List Item) (m : Nat → Option Item) (it : Item),
    (l.map Item.id).Nodup → it ∈ l →
    (l.foldl (fun m it => fun k => if k = it.id then some it else m k) m) it.id = some it := by
  intro l
  induction l with
  | nil => intro m it _ h; simp at h
  | cons x rest ih =>
    intro m it hnd hmem
    rw [List.map_cons, List.nodup_cons] at hnd
    rw [List.foldl_cons]
    rcases List.mem_cons.mp hmem with rfl | hrest
    · have hnot : ∀ y ∈ rest, y.id ≠ it.id := by
        intro y hy hyid
        exact hnd.1 (hyid ▸ List.mem_map_of_mem Item.id hy)
      rw [idFoldl_untouched rest _ it.id hnot]
      simp
    · exact ih _ it hnd.2 hrest

theorem buildItemsById_of_mem (items : List Item) (it : Item)
    (hnd : (items.map Item.id).Nodup) (hmem : it ∈ items) :
    buildItemsById items it.id = some it := by
  unfold buildItemsById
  exact idFoldl_of_mem items _ it hnd hmem

/-! ## Hydration tolerates dangling references (claim C9) -/

/-- C9: `MapItemIdsToItem` never fails on a dangling reference: a step item
whose `ItemID` matches no stored item is hydrated to the zero `Item{}`
placeholder, while (given the stored items have distinct ids) a step item
whose `ItemID` matches a stored item is hydrated to exactly that item; in
both cases the step item survives inside its hydrated step. -/
theorem mapItemIdsToItem_placeholder (items : List Item) (recipe : Recipe)
    (st : Step) (si : StepItem) (hst : st ∈ recipe.steps) (hsi : si ∈ st.items) :
    ((∀ it ∈ items, it.id ≠ si.itemID) →
      hydrateStep (buildItemsById items) st ∈ (MapItemIdsToItem items recipe).steps ∧
      { si with item := emptyItem } ∈ (hydrateStep (buildItemsById items) st).items) ∧
    (∀ it, (items.map Item.id).Nodup → it ∈ items → it.id = si.itemID →
      hydrateStep (buildItemsById items) st ∈ (MapItemIdsToItem items recipe).steps ∧
      { si with item := it } ∈ (hydrateStep (buildItemsById items) st).items) := by
  constructor
  · intro hdangling
    refine ⟨List.mem_map_of_mem _ hst, ?_⟩
    have h1 : buildItemsById items si.itemID = none := buildItemsById_none items _ hdangling
    have h2 : hydrateStepItem (buildItemsById items) si = { si with item := emptyItem } := by
      simp [hydrateStepItem, h1]
    exact h2 ▸ List.mem_map_of_mem _ hsi
  · intro it hnd hit hid
    refine ⟨List.mem_map_of_mem _ hst, ?_⟩
    have h1 : buildItemsById items si.itemID = some it := by
      rw [← hid]; exact buildItemsById_of_mem items it hnd hit
    have h2 : hydrateStepItem (buildItemsById items) si = { si with item := it } := by
      simp [hydrateStepItem, h1]
    exact h2 ▸ List.mem_map_of_mem _ hsi

/-! ## Canonicalization: second run repeats the first (claim C2) -/

theorem cleanUpStepItem_twice (items : List Item) (si : StepItem) :
    cleanUpStepItem (buildItemMap items) (cleanUpStepItem (buildItemMap items) si).fst
      = cleanUpStepItem (buildItemMap items) si := by
  cases h : buildItemMap items si.item.name with
  | none =>
    simp [cleanUpStepItem, h]
  | some it =>
    have hfix := buildItemMap_fix items si.item.name it h
    simp [cleanUpStepItem, h, hfix]

theorem cleanUpStepItems_twice (items : List Item) : ∀ (l : List StepItem),
    cleanUpStepItems (buildItemMap items) (cleanUpStepItems (buildItemMap items) l).fst
      = cleanUpStepItems (buildItemMap items) l := by
  intro l
  induction l with
  | nil => rfl
  | cons si rest ih =>
    simp only [cleanUpStepItems]
    rw [cleanUpStepItem_twice items si, ih]

theorem cleanUpStep_twice (items : List Item) (st : Step) :
    cleanUpStep (buildItemMap items) (cleanUpStep (buildItemMap items) st).fst
      = cleanUpStep (buildItemMap items) st := by
  simp only [cleanUpStep]
  rw [cleanUpStepItems_twice items st.items]

theorem cleanUpSteps_twice (items : List Item) : ∀ (l : List Step),
    cleanUpSteps (buildItemMap items) (cleanUpSteps (buildItemMap items) l).fst
      = cleanUpSteps (buildItemMap items) l := by
  intro l
  induction l with
  | nil => rfl
  | cons st rest ih =>
    simp only [cleanUpSteps]
    rw [cleanUpStep_twice items st, ih]

theorem cleanUpRecipe_twice (items : List Item) (r : Recipe) :
    cleanUpRecipe (buildItemMap items) (cleanUpRecipe (buildItemMap items) r).fst
      = cleanUpRecipe (buildItemMap items) r := by
  simp only [cleanUpRecipe]
  rw [cleanUpSteps_twice items r.steps]

theorem cleanUpRecipes_twice (items : List Item) : ∀ (l : List Recipe),
    cleanUpRecipes (buildItemMap items) (cleanUpRecipes (buildItemMap items) l).fst
      = cleanUpRecipes (buildItemMap items) l := by
  intro l
  induction l with
  | nil => rfl
  | cons r rest ih =>
    simp only [cleanUpRecipes]
    rw [cleanUpRecipe_twice items r, ih]

theorem hydrateStepItem_idem (B : Nat → Option Item) (si : StepItem) :
    hydrateStepItem B (hydrateStepItem B si) = hydrateStepItem B si := by
  simp [hydrateStepItem]

theorem hyd_cleanUpStepItem_hyd (items : List Item)
    (hnd : (items.map Item.id).Nodup) (si : StepItem) :
    hydrateStepItem (buildItemsById items)
        (cleanUpStepItem (buildItemMap items) (hydrateStepItem (buildItemsById items) si)).fst
      = (cleanUpStepItem (buildItemMap items) (hydrateStepItem (buildItemsById items) si)).fst := by
  cases h : buildItemMap items (hydrateStepItem (buildItemsById items) si).item.name with
  | none =>
    simp only [cleanUpStepItem, h]
    exact hydrateStepItem_idem _ si
  | some it =>
    have hmem := (buildItemMap_mem_name items _ it h).1
    have hB : buildItemsById items it.id = some it := buildItemsById_of_mem items it hnd hmem
    simp only [cleanUpStepItem, h]
    simp [hydrateStepItem, hB]

theorem hyd_cleanUpStepItems_hyd (items : List Item)
    (hnd : (items.map Item.id).Nodup) : ∀ (l : List StepItem),
    ((cleanUpStepItems (buildItemMap items) (l.map (hydrateStepItem (buildItemsById items)))).fst).map
        (hydrateStepItem (buildItemsById items))
      = (cleanUpStepItems (buildItemMap items) (l.map (hydrateStepItem (buildItemsById items)))).fst := by
  intro l
  induction l with
  | nil => rfl
  | cons si rest ih =>
    simp only [List.map_cons, cleanUpStepItems]
    rw [hyd_cleanUpStepItem_hyd items hnd si, ih]

theorem hyd_cleanUpStep_hyd (items : List Item)
    (hnd : (items.map Item.id).Nodup) (st : Step) :
    hydrateStep (buildItemsById items)
        (cleanUpStep (buildItemMap items) (hydrateStep (buildItemsById items) st)).fst
      = (cleanUpStep (buildItemMap items) (hydrateStep (buildItemsById items) st)).fst := by
  simp only [cleanUpStep, hydrateStep]
  rw [hyd_cleanUpStepItems_hyd items hnd st.items]

theorem hyd_cleanUpSteps_hyd (items : List Item)
    (hnd : (items.map Item.id).Nodup) : ∀ (l : List Step),
    ((cleanUpSteps (buildItemMap items) (l.map (hydrateStep (buildItemsById items)))).fst).map
        (hydrateStep (buildItemsById items))
      = (cleanUpSteps (buildItemMap items) (l.map (hydrateStep (buildItemsById items)))).fst := by
  intro l
  induction l with
  | nil => rfl
  | cons st rest ih =>
    simp only [List.map_cons, cleanUpSteps]
    rw [hyd_cleanUpStep_hyd items hnd st, ih]

theorem hyd_cleanUpRecipe_hyd (items : List Item)
    (hnd : (items.map Item.id).Nodup) (r : Recipe) :
    MapItemIdsToItem items
        (cleanUpRecipe (buildItemMap items) (MapItemIdsToItem items r)).fst
      = (cleanUpRecipe (buildItemMap items) (MapItemIdsToItem items r)).fst := by
  simp only [cleanUpRecipe, MapItemIdsToItem]
  rw [hyd_cleanUpSteps_hyd items hnd r.steps]

theorem hyd_cleanUpRecipes_hyd (items : List Item)
    (hnd : (items.map Item.id).Nodup) : ∀ (l : List Recipe),
    hydrateRecipes items (cleanUpRecipes (buildItemMap items) (hydrateRecipes items l)).fst
      = (cleanUpRecipes (buildItemMap items) (hydrateRecipes items l)).fst := by
  intro l
  induction l with
  | nil => rfl
  | cons r rest ih =>
    simp only [hydrateRecipes, List.map_cons, cleanUpRecipes] at ih ⊢
    rw [hyd_cleanUpRecipe_hyd items hnd r, ih]

/-- C2 (amended): with distinct stored item ids, a second canonicalization
run over the re-read, re-hydrated write-back of the first run returns the
same recipes and, contrary to the claim, the same rewrite count as the first
run — the counter counts every step item whose item name has a map entry,
not only changed references, so the second report is not empty. -/
theorem cleanUpItemsInRecipes_second_run_eq_first (items : List Item) (rs : List Recipe)
    (hnd : (items.map Item.id).Nodup) :
    CleanUpItemsInRecipes items
        (hydrateRecipes items (CleanUpItemsInRecipes items (hydrateRecipes items rs)).fst)
      = CleanUpItemsInRecipes items (hydrateRecipes items rs) := by
  unfold CleanUpItemsInRecipes
  rw [hyd_cleanUpRecipes_hyd items hnd rs]
  exact cleanUpRecipes_twice items _

/-! ## Write-back failure behaviour (claim C1) -/

/-- C1 (amended): the write-back loop of `CleanUpItemsInRecipes` aborts at
the first failing persist: exactly the recipes before the first failure are
written, the first failing recipe is returned as the error, and no recipe
after it is processed — failures are not collected into a report. -/
theorem writeBackRecipes_aborts_at_first_failure (persist : Recipe → Bool)
    (rs : List Recipe) :
    writeBackRecipes persist rs = (rs.takeWhile persist, (rs.dropWhile persist).head?) := by
  induction rs with
  | nil => rfl
  | cons r rest ih =>
    by_cases hp : persist r
    · simp [writeBackRecipes, List.takeWhile_cons, List.dropWhile_cons, hp, ih]
    · simp [writeBackRecipes, List.takeWhile_cons, List.dropWhile_cons, hp]

/-! ## Test fixtures for counterexamples and witnesses -/

/-- A minimal recipe with a given id. -/
def testRecipe (n : Nat) : Recipe :=
  { id := n, name := "", author := "", description := "", items := [], steps := [],
    props := { url := "", imgUrl := "", duration := 0, createdAt := 0, tags := [], likes := 0 },
    deleted := false }

/-- A recipe whose single step references item id 1. -/
def testBreadRecipe : Recipe :=
  { id := 5, name := "Bread", author := "a", description := "", items := [],
    steps := [{ description := "mix", items := [{ itemID := 1, amount := 1, unit := "g", item := emptyItem }],
                imgUrl := "", duration := 0, additional := none }],
    props := { url := "", imgUrl := "", duration := 0, createdAt := 0, tags := [], likes := 0 },
    deleted := false }

/-- A stored item named Flour with id 1 and no optional attributes. -/
def testFlour1 : Item := { id := 1, name := "Flour", type := "", imgUrl := "" }

/-- A stored item named Flour with id 2 and one optional attribute set. -/
def testFlour2 : Item := { id := 2, name := "Flour", type := "ingredient", imgUrl := "" }

/-- C1 counterexample: with two recipes of which the first write fails and
the second would succeed, the loop writes nothing at all — the second
recipe is not processed and the failure aborts the batch instead of being
collected into a report. -/
theorem writeBackRecipes_cex :
    (writeBackRecipes (fun r => r.id != 1) [testRecipe 1, testRecipe 2]).fst = [] ∧
    (writeBackRecipes (fun r => r.id != 1) [testRecipe 1, testRecipe 2]).snd = some (testRecipe 1) ∧
    (fun (r : Recipe) => r.id != 1) (testRecipe 2) = true := by
  decide

/-- C2 counterexample: one Flour item and one recipe referencing it; the
second canonicalization run (on the re-read write-back of the first) reports
1 rewritten reference, not an empty report. -/
theorem cleanUpItemsInRecipes_second_report_nonzero_cex :
    (CleanUpItemsInRecipes [testFlour1]
        (hydrateRecipes [testFlour1]
          (CleanUpItemsInRecipes [testFlour1]
            (hydrateRecipes [testFlour1] [testBreadRecipe])).fst)).snd ≠ 0 := by
  decide

/-! ## Soft-delete read paths (claim C4) -/

/-- C4 counterexample: after soft-deleting the only stored recipe,
`GetRecipeById` still returns it (with its deleted flag set), contrary to
the claim that no read path returns a deleted recipe. -/
theorem getRecipeById_returns_deleted_cex :
    GetRecipeById (DeleteRecipeById [testRecipe 1] 1) 1
      = some { testRecipe 1 with deleted := true } ∧
    (GetRecipeById (DeleteRecipeById [testRecipe 1] 1) 1).map Recipe.deleted = some true := by
  decide

/-- C4 (amended): a recipe soft-deleted by `DeleteRecipeById` is excluded
from `GetAllRecipes` and remains in storage, but `GetRecipeById` — which
filters by id only — still returns it: whenever the store holds a recipe
with the deleted id, the lookup after deletion yields a recipe with that id
whose deleted flag is set. -/
theorem softDelete_read_paths (store : List Recipe) (items : List Item) (id : Nat) :
    (∀ r ∈ GetAllRecipes (DeleteRecipeById store id) items, r.id ≠ id ∧ r.deleted = false) ∧
    (DeleteRecipeById store id).length = store.length ∧
    (∀ r₀ ∈ store, r₀.id = id →
      (GetRecipeById (DeleteRecipeById store id) id).map Recipe.id = some id ∧
      (GetRecipeById (DeleteRecipeById store id) id).map Recipe.deleted = some true) := by
  refine ⟨?_, by simp [DeleteRecipeById], ?_⟩
  · intro r hr
    unfold GetAllRecipes at hr
    rcases List.mem_map.mp hr with ⟨r₁, hr₁, hmap⟩
    have hfil := List.mem_filter.mp hr₁
    have hdel : r₁.deleted = false := by
      have := hfil.2
      simpa using this
    have hid : r₁.id ≠ id := by
      intro hid
      rcases List.mem_map.mp hfil.1 with ⟨r₀, _, hupd⟩
      by_cases h0 : r₀.id == id
      · rw [if_pos h0] at hupd
        rw [← hupd] at hdel
        simp at hdel
      · rw [if_neg h0] at hupd
        rw [← hupd] at hid
        exact h0 (by simp [hid])
    constructor
    · rw [← hmap]
      simpa [MapItemIdsToItem] using hid
    · rw [← hmap]
      simpa [MapItemIdsToItem] using hdel
  · intro r₀ h₀ hid
    have hm : ({ r₀ with deleted := true } : Recipe) ∈ DeleteRecipeById store id := by
      unfold DeleteRecipeById
      have : (if r₀.id == id then { r₀ with deleted := true } else r₀) = { r₀ with deleted := true } := by
        rw [if_pos (by simp [hid])]
      exact this ▸ List.mem_map_of_mem _ h₀
    have hsome : (GetRecipeById (DeleteRecipeById store id) id).isSome = true := by
      unfold GetRecipeById
      rw [List.find?_isSome]
      exact ⟨{ r₀ with deleted := true }, hm, by simp [hid]⟩
    rcases Option.isSome_iff_exists.mp hsome with ⟨r', hr'⟩
    have hrid : r'.id = id := by
      have := List.find?_some hr'
      simpa using this
    have hrdel : r'.deleted = true := by
      have hmem := List.mem_of_find?_eq_some hr'
      unfold DeleteRecipeById at hmem
      rcases List.mem_map.mp hmem with ⟨r₂, _, hupd⟩
      by_cases h2 : r₂.id == id
      · rw [if_pos h2] at hupd
        rw [← hupd]
      · rw [if_neg h2] at hupd
        rw [← hupd] at hrid
        exact absurd (by simp [hrid]) h2
    rw [hr']
    exact ⟨by simp [hrid], by simp [hrdel]⟩

/-! ## Discount upsert idempotence (claim C5) -/

theorem matchKey_self (d : Discount) : matchKey d d = true := by
  simp [matchKey]

theorem matchKey_setDiscount (s d : Discount) : matchKey (setDiscount s d) d = true := by
  simp [matchKey, setDiscount]

theorem setDiscount_self (d : Discount) : setDiscount d d = d := by
  simp [setDiscount]

/-- C5: ingesting a discount twice through `AddDiscounts` over a store that
respects the (internalMarketId, title) key invariant (at most one record per
key) leaves exactly one stored record for that key, and every payload field
of that record is the ingested discount's. -/
theorem addDiscounts_upsert_idempotent (store : List Discount) (d : Discount)
    (h : countKey store d ≤ 1) :
    ((AddDiscounts (AddDiscounts store [d]) [d]).filter (fun s => matchKey s d)).length = 1 ∧
    ∀ s ∈ AddDiscounts (AddDiscounts store [d]) [d], matchKey s d = true →
      s.title = d.title ∧ s.price = d.price ∧ s.imageUrl = d.imageUrl ∧
      s.validUntil = d.validUntil ∧ s.marketName = d.marketName ∧
      s.internalMarketId = d.internalMarketId ∧ s.tags = d.tags := by
  have hAdd : ∀ st : List Discount, AddDiscounts st [d] = upsertDiscount st d := fun _ => rfl
  rw [hAdd, hAdd]
  induction store with
  | nil =>
    constructor
    · simp [upsertDiscount, matchKey_self, setDiscount_self, List.filter_cons]
    · intro s hs _
      have : s = d := by
        simpa [upsertDiscount, matchKey_self, setDiscount_self] using hs
      subst this
      exact ⟨rfl, rfl, rfl, rfl, rfl, rfl, rfl⟩
  | cons s₀ rest ih =>
    by_cases hm : matchKey s₀ d
    · have hrest0 : countKey rest d = 0 := by
        simp [countKey, List.filter_cons, hm] at h
        simpa [countKey] using h
      have hrestnil : rest.filter (fun s => matchKey s d) = [] :=
        List.length_eq_zero.mp (by simpa [countKey] using hrest0)
      have hnone : ∀ s ∈ rest, matchKey s d = false := by
        intro s hs
        by_contra hc
        have : s ∈ rest.filter (fun s => matchKey s d) :=
          List.mem_filter.mpr ⟨hs, by simpa using hc⟩
        simp [hrestnil] at this
      have hu1 : upsertDiscount (s₀ :: rest) d = setDiscount s₀ d :: rest := by
        simp [upsertDiscount, hm]
      have hu2 : upsertDiscount (setDiscount s₀ d :: rest) d
          = setDiscount (setDiscount s₀ d) d :: rest := by
        simp [upsertDiscount, matchKey_setDiscount]
      rw [hu1, hu2]
      constructor
      · simp [List.filter_cons, matchKey_setDiscount, hrestnil]
      · intro s hs hms
        rcases List.mem_cons.mp hs with rfl | hsrest
        · exact ⟨rfl, rfl, rfl, rfl, rfl, rfl, rfl⟩
        · rw [hnone s hsrest] at hms
          cases hms
    · have hmf : matchKey s₀ d = false := by simpa using hm
      have hle : countKey rest d ≤ 1 := by
        simpa [countKey, List.filter_cons, hmf] using h
      have hu1 : upsertDiscount (s₀ :: rest) d = s₀ :: upsertDiscount rest d := by
        simp [upsertDiscount, hmf]
      have hu2 : upsertDiscount (s₀ :: upsertDiscount rest d) d
          = s₀ :: upsertDiscount (upsertDiscount rest d) d := by
        simp [upsertDiscount, hmf]
      rw [hu1, hu2]
      rcases ih hle with ⟨ih1, ih2⟩
      constructor
      · simpa [List.filter_cons, hmf] using ih1
      · intro s hs hms
        rcases List.mem_cons.mp hs with rfl | hsrest
        · rw [hmf] at hms; cases hms
        · exact ih2 s hsrest hms

/-! ## Read-path dedup by title (claim C6) -/

theorem lookup_none_mem : ∀ (m : List (String × Discount)) (k : String),
    m.lookup k = none → ∀ p ∈ m, p.1 ≠ k := by
  intro m
  induction m with
  | nil => intro k _ p hp; simp at hp
  | cons q rest ih =>
    intro k hk p hp
    rcases q with ⟨k₁, v₁⟩
    by_cases hkk : k == k₁
    · simp [List.lookup, hkk] at hk
    · rcases List.mem_cons.mp hp with rfl | hrest
      · intro h
        have h' : k₁ = k := h
        exact hkk (by simp [h'])
      · have : List.lookup k rest = none := by
          simpa [List.lookup, hkk] using hk
        exact ih k this p hrest

theorem lookup_some_mem : ∀ (m : List (String × Discount)) (k : String) (v : Discount),
    m.lookup k = some v → (k, v) ∈ m := by
  intro m
  induction m with
  | nil => intro k v h; simp [List.lookup] at h
  | cons q rest ih =>
    intro k v h
    rcases q with ⟨k₁, v₁⟩
    by_cases hkk : k == k₁
    · have hk : k = k₁ := by simpa using hkk
      have hv : v₁ = v := by simpa [List.lookup, hkk] using h
      subst hk; subst hv
      exact List.mem_cons_self _ _
    · have : List.lookup k rest = some v := by simpa [List.lookup, hkk] using h
      exact List.mem_cons_of_mem _ (ih k v this)

theorem mem_lookup_of_nodup : ∀ (m : List (String × Discount)) (k : String) (v : Discount),
    (m.map Prod.fst).Nodup → (k, v) ∈ m → m.lookup k = some v := by
  intro m
  induction m with
  | nil => intro k v _ h; simp at h
  | cons q rest ih =>
    intro k v hnd hm
    rcases q with ⟨k₁, v₁⟩
    rw [List.map_cons, List.nodup_cons] at hnd
    rcases List.mem_cons.mp hm with heq | hrest
    · rw [Prod.mk.injEq] at heq
      rcases heq with ⟨rfl, rfl⟩
      simp [List.lookup]
    · have hne : k ≠ k₁ := by
        intro h
        have hmm : k₁ ∈ List.map Prod.fst rest := by
          rw [← h]
          exact List.mem_map_of_mem Prod.fst hrest
        exact hnd.1 hmm
      simp only [List.lookup, show (k == k₁) = false by simpa using hne]
      exact ih k v hnd.2 hrest

theorem lookup_append_single : ∀ (m : List (String × Discount)) (k : String) (v : Discount)
    (t : String),
    (m ++ [(k, v)]).lookup t
      = match m.lookup t with
        | some x => some x
        | none => if t == k then some v else none := by
  intro m
  induction m with
  | nil =>
    intro k v t
    by_cases h : t == k
    · simp [List.lookup, h]
    · simp [List.lookup, h]
  | cons q rest ih =>
    intro k v t
    rcases q with ⟨k₁, v₁⟩
    by_cases hkk : t == k₁
    · simp [List.lookup, hkk]
    · simp only [List.cons_append, List.lookup, show (t == k₁) = false by simpa using hkk]
      exact ih k v t

theorem dedup_lookup : ∀ (l : List Discount) (m : List (String × Discount)) (t : String),
    ((l.foldl dedupStep m).lookup t)
      = match m.lookup t with
        | some x => some x
        | none => l.find? (fun d => d.title == t) := by
  intro l
  induction l with
  | nil => intro m t; cases h : m.lookup t <;> simp [h]
  | cons d rest ih =>
    intro m t
    rw [List.foldl_cons]
    by_cases hld : (m.lookup d.title).isSome
    · have hstep : dedupStep m d = m := by simp [dedupStep, hld]
      rw [hstep, ih]
      cases hmt : m.lookup t with
      | some x => simp
      | none =>
        by_cases hdt : d.title == t
        · exfalso
          have heq : d.title = t := by simpa using hdt
          rw [Option.isSome_iff_exists] at hld
          rcases hld with ⟨x, hx⟩
          rw [heq, hmt] at hx
          cases hx
        · simp only []
          rw [List.find?_cons_of_neg _ (by simp [show (d.title == t) = false by simpa using hdt])]
    · have hstep : dedupStep m d = m ++ [(d.title, d)] := by simp [dedupStep, hld]
      rw [hstep, ih, lookup_append_single]
      cases hmt : m.lookup t with
      | some x => simp
      | none =>
        by_cases htd : t == d.title
        · have heq : t = d.title := by simpa using htd
          simp only [if_pos htd]
          rw [List.find?_cons_of_pos _ (by simp [heq])]
        · have hne : (d.title == t) = false := by
            by_contra hc
            have hbt : (d.title == t) = true := by
              cases hb : d.title == t
              · exact absurd hb hc
              · rfl
            have : d.title = t := by simpa using hbt
            exact htd (by simp [this])
          rw [if_neg htd, List.find?_cons_of_neg _ (by simp [hne])]

theorem dedup_titles_inv : ∀ (l : List Discount) (m : List (String × Discount)),
    (∀ p ∈ m, p.2.title = p.1) → ∀ p ∈ l.foldl dedupStep m, p.2.title = p.1 := by
  intro l
  induction l with
  | nil => intro m hm p hp; exact hm p hp
  | cons d rest ih =>
    intro m hm p hp
    rw [List.foldl_cons] at hp
    refine ih (dedupStep m d) ?_ p hp
    intro q hq
    unfold dedupStep at hq
    by_cases hld : (m.lookup d.title).isSome
    · rw [if_pos hld] at hq
      exact hm q hq
    · rw [if_neg hld] at hq
      rcases List.mem_append.mp hq with h1 | h2
      · exact hm q h1
      · have : q = (d.title, d) := by simpa using h2
        rw [this]

theorem dedup_keys_nodup : ∀ (l : List Discount) (m : List (String × Discount)),
    (m.map Prod.fst).Nodup → ((l.foldl dedupStep m).map Prod.fst).Nodup := by
  intro l
  induction l with
  | nil => intro m hm; exact hm
  | cons d rest ih =>
    intro m hm
    rw [List.foldl_cons]
    refine ih (dedupStep m d) ?_
    unfold dedupStep
    by_cases hld : (m.lookup d.title).isSome
    · rw [if_pos hld]; exact hm
    · rw [if_neg hld]
      rw [List.map_append, List.nodup_append]
      refine ⟨hm, by simp, ?_⟩
      intro k hk hk1
      have hkd : k = d.title := by simpa using hk1
      have hnone : m.lookup d.title = none := by
        cases h : m.lookup d.title
        · rfl
        · rw [h] at hld; simp at hld
      rcases List.mem_map.mp hk with ⟨p, hp, hpk⟩
      exact lookup_none_mem m d.title hnone p hp (hpk.trans hkd)

theorem filter_title_length_le_one : ∀ (l : List Discount),
    (l.map (fun d => d.title)).Nodup →
    ∀ t, (l.filter (fun d => d.title == t)).length ≤ 1 := by
  intro l
  induction l with
  | nil => intro _ t; simp
  | cons d rest ih =>
    intro hnd t
    rw [List.map_cons, List.nodup_cons] at hnd
    rw [List.filter_cons]
    by_cases hdt : d.title == t
    · have hdt' : d.title = t := by simpa using hdt
      have hnone : rest.filter (fun d' => d'.title == t) = [] := by
        rw [List.filter_eq_nil_iff]
        intro a ha hat
        have hat' : a.title = t := by simpa using hat
        apply hnd.1
        rw [hdt', ← hat']
        exact List.mem_map_of_mem _ ha
      simp [hdt, hnone]
    · simpa [hdt] using ih hnd.2 t

/-- C6: on a successful read, `GetDiscountsByCity` returns at most one
discount per title; each returned discount is the first stored discount (in
storage iteration order, among the city's markets) bearing its title; every
stored title of the city's markets is represented; and every returned
discount is a stored one (the duplicates are dropped from the result only —
the store is not modified by this pure read). -/
theorem getDiscountsByCity_dedup_by_title (markets : List Market) (store : List Discount)
    (city : String) (result : List Discount)
    (h : GetDiscountsByCity markets store city = (result, none)) :
    (∀ t, (result.filter (fun d => d.title == t)).length ≤ 1) ∧
    (∀ d ∈ result,
      (store.filter
        (fun d' => (GetAllMarketIDsByCity markets city).contains d'.internalMarketId)).find?
          (fun d' => d'.title == d.title) = some d) ∧
    (∀ d₀ ∈ store.filter
        (fun d' => (GetAllMarketIDsByCity markets city).contains d'.internalMarketId),
      ∃ d' ∈ result, d'.title = d₀.title) ∧
    (∀ d ∈ result, d ∈ store) := by
  by_cases hlen : (GetAllMarketIDsByCity markets city).length = 0
  · exfalso
    unfold GetDiscountsByCity at h
    rw [if_pos hlen] at h
    exact Option.noConfusion (congrArg Prod.snd h)
  · unfold GetDiscountsByCity at h
    rw [if_neg hlen] at h
    set l := store.filter
      (fun d' => (GetAllMarketIDsByCity markets city).contains d'.internalMarketId) with hl
    have hres : result = dedupByTitle l := (congrArg Prod.fst h).symm
    have hinv : ∀ p ∈ l.foldl dedupStep [], p.2.title = p.1 :=
      dedup_titles_inv l [] (by simp)
    have hkeys : ((l.foldl dedupStep []).map Prod.fst).Nodup :=
      dedup_keys_nodup l [] (by simp)
    have hfind : ∀ d ∈ result, l.find? (fun d' => d'.title == d.title) = some d := by
      intro d hd
      rw [hres] at hd
      unfold dedupByTitle at hd
      rcases List.mem_map.mp hd with ⟨p, hp, hpd⟩
      have ht : p.2.title = p.1 := hinv p hp
      have hlk : (l.foldl dedupStep []).lookup p.1 = some p.2 := by
        refine mem_lookup_of_nodup _ p.1 p.2 hkeys ?_
        simpa using hp
      rw [dedup_lookup l [] p.1] at hlk
      simp only [List.lookup] at hlk
      rw [← hpd, ht]
      exact hlk
    refine ⟨?_, hfind, ?_, ?_⟩
    · -- at most one discount per title
      refine filter_title_length_le_one result ?_
      rw [hres]
      unfold dedupByTitle
      have hmm : ((l.foldl dedupStep []).map Prod.snd).map (fun d => d.title)
          = (l.foldl dedupStep []).map Prod.fst := by
        rw [List.map_map]
        exact List.map_congr_left (fun p hp => hinv p hp)
      rw [hmm]
      exact hkeys
    · -- every stored title of the city's markets is represented
      intro d₀ hd₀
      have hlk := dedup_lookup l [] d₀.title
      simp only [List.lookup] at hlk
      have hfindsome : (l.find? (fun d => d.title == d₀.title)).isSome := by
        rw [List.find?_isSome]
        exact ⟨d₀, hd₀, by simp⟩
      rcases Option.isSome_iff_exists.mp hfindsome with ⟨v, hv⟩
      rw [hv] at hlk
      have hmem := lookup_some_mem _ _ _ hlk
      refine ⟨v, ?_, ?_⟩
      · rw [hres]
        unfold dedupByTitle
        exact (show Prod.snd (d₀.title, v) = v from rfl) ▸ List.mem_map_of_mem Prod.snd hmem
      · have := List.find?_some hv
        simpa using this
    · -- returned discounts are stored discounts
      intro d hd
      have := List.mem_of_find?_eq_some (hfind d hd)
      rw [hl] at this
      exact List.mem_of_mem_filter this

/-! ## Per-market failure isolation (claim C7) -/

theorem fetchFoldl_mono (fetch : Market → Except String (List Discount)) :
    ∀ (l : List Market) (acc : List Discount) (d : Discount), d ∈ acc →
      d ∈ l.foldl
        (fun acc m =>
          match fetch m with
          | .error _ => acc
          | .ok ds => acc ++ ds)
        acc := by
  intro l
  induction l with
  | nil => intro acc d hd; exact hd
  | cons m rest ih =>
    intro acc d hd
    rw [List.foldl_cons]
    cases hf : fetch m with
    | error e => simpa [hf] using ih acc d hd
    | ok ds =>
      simp only [hf]
      exact ih (acc ++ ds) d (List.mem_append.mpr (Or.inl hd))

theorem fetchFoldl_mem (fetch : Market → Except String (List Discount)) :
    ∀ (l : List Market) (acc : List Discount) (m : Market) (ds : List Discount) (d : Discount),
      m ∈ l → fetch m = .ok ds → d ∈ ds →
      d ∈ l.foldl
        (fun acc m =>
          match fetch m with
          | .error _ => acc
          | .ok ds => acc ++ ds)
        acc := by
  intro l
  induction l with
  | nil => intro acc m ds d hm _ _; simp at hm
  | cons m₁ rest ih =>
    intro acc m ds d hm hok hd
    rw [List.foldl_cons]
    rcases List.mem_cons.mp hm with rfl | hrest
    · rw [hok]
      exact fetchFoldl_mono fetch rest (acc ++ ds) d (List.mem_append.mpr (Or.inr hd))
    · cases hf : fetch m₁ with
      | error e => exact ih acc m ds d hrest hok hd
      | ok ds₁ => exact ih (acc ++ ds₁) m ds d hrest hok hd

/-- C7: a failing market fetch never suppresses the other markets'
results — every discount successfully fetched from any market of the city
is in the result of `GetDiscountsByCityFromAPI`, even when some other
market's fetch fails. -/
theorem getDiscountsByCityFromAPI_failure_isolation (markets : List Market)
    (fetch : Market → Except String (List Discount))
    (mBad : Market) (e : String) (m : Market) (ds : List Discount) (d : Discount)
    (hBad : mBad ∈ markets) (hfail : fetch mBad = .error e)
    (hm : m ∈ markets) (hok : fetch m = .ok ds) (hd : d ∈ ds) :
    d ∈ GetDiscountsByCityFromAPI (.ok markets) fetch := by
  unfold GetDiscountsByCityFromAPI
  exact fetchFoldl_mem fetch markets [] m ds d hm hok hd

/-! ## No markets for a city (claim C8) -/

/-- C8: `GetDiscountsByCity` fails exactly when no market ids resolve for
the city: the error component is set iff the resolved id list is empty, and
in that case the discount list is empty and the error is the not-found
message. -/
theorem getDiscountsByCity_notFound_iff_no_markets (markets : List Market)
    (store : List Discount) (city : String) :
    ((GetDiscountsByCity markets store city).snd ≠ none ↔
      GetAllMarketIDsByCity markets city = []) ∧
    (GetAllMarketIDsByCity markets city = [] →
      GetDiscountsByCity markets store city
        = ([], some ("No markets found for " ++ city))) := by
  constructor
  · constructor
    · intro h
      by_contra hne
      have hlen : (GetAllMarketIDsByCity markets city).length ≠ 0 := by
        simpa [List.length_eq_zero] using hne
      unfold GetDiscountsByCity at h
      rw [if_neg hlen] at h
      exact h rfl
    · intro h
      have hlen : (GetAllMarketIDsByCity markets city).length = 0 := by simp [h]
      unfold GetDiscountsByCity
      rw [if_pos hlen]
      simp
  · intro h
    have hlen : (GetAllMarketIDsByCity markets city).length = 0 := by simp [h]
    unfold GetDiscountsByCity
    rw [if_pos hlen]

/-! ## Undefined exclude imposes no constraint (claim C10) -/

/-- C10: a query entry whose `exclude` field is `undefined` imposes no
constraint in `filterRecipeByItems`: the entry itself evaluates to true
(JavaScript strict inequality of a boolean against `undefined` always
holds), and dropping the entry from any query leaves the filter's verdict
unchanged for every recipe. -/
theorem filterRecipeByItems_undefined_exclude (recipe : FrontendRecipe)
    (q₁ q₂ : List ItemQuery) (entry : ItemQuery) (he : entry.exclude = none) :
    (some (hasItem recipe entry.id) != entry.exclude) = true ∧
    filterRecipeByItems recipe (q₁ ++ entry :: q₂)
      = filterRecipeByItems recipe (q₁ ++ q₂) := by
  constructor
  · simp [he]
  · unfold filterRecipeByItems
    rw [List.all_append, List.all_cons, List.all_append]
    simp [he, bne]

/-! ## Witnesses -/

/-- A concrete discount at market m1. -/
def testDiscountA : Discount :=
  { id := 0, title := "3-for-2 Pasta", price := "2.99", imageUrl := "", validUntil := 10,
    marketName := "Edeka", internalMarketId := "m1", tags := [] }

/-- A concrete discount with the same title at market m2. -/
def testDiscountB : Discount :=
  { id := 0, title := "3-for-2 Pasta", price := "3.49", imageUrl := "", validUntil := 12,
    marketName := "Rewe", internalMarketId := "m2", tags := [] }

/-- A concrete market in Konstanz. -/
def testMarket1 : Market := { id := "m1", city := "Konstanz", distributor := "edeka" }

/-- A second concrete market in Konstanz. -/
def testMarket2 : Market := { id := "m2", city := "Konstanz", distributor := "rewe" }

/-- A fetch function that fails for market m1 and succeeds for the rest. -/
def testFetch (m : Market) : Except String (List Discount) :=
  if m.id = "m1" then .error "down" else .ok [testDiscountB]

/-- Witness for C2's amended theorem at a concrete store. -/
theorem cleanUpItemsInRecipes_second_run_eq_first_witness :
    CleanUpItemsInRecipes [testFlour1]
        (hydrateRecipes [testFlour1]
          (CleanUpItemsInRecipes [testFlour1] (hydrateRecipes [testFlour1] [testBreadRecipe])).fst)
      = CleanUpItemsInRecipes [testFlour1] (hydrateRecipes [testFlour1] [testBreadRecipe]) :=
  cleanUpItemsInRecipes_second_run_eq_first [testFlour1] [testBreadRecipe] (by decide)

/-- Witness for C3 at a concrete two-item Flour bucket: the higher-scoring
item is selected. -/
theorem buildItemMap_selects_first_max_witness :
    buildItemMap [testFlour1, testFlour2] "Flour" = some testFlour2 := by
  have h := buildItemMap_selects_first_max [testFlour1, testFlour2] "Flour"
    testFlour1 [testFlour2] (by decide)
  have hsel : selectCanonical testFlour1 [testFlour2] = testFlour2 := by decide
  rw [← hsel]
  exact h.1

/-- Witness for C4's amended theorem at a concrete one-recipe store. -/
theorem softDelete_read_paths_witness :
    (GetRecipeById (DeleteRecipeById [testRecipe 3] 3) 3).map Recipe.id = some 3 ∧
    (GetRecipeById (DeleteRecipeById [testRecipe 3] 3) 3).map Recipe.deleted = some true :=
  (softDelete_read_paths [testRecipe 3] [] 3).2.2 (testRecipe 3) (by decide) (by decide)

/-- Witness for C5 at a concrete discount over the empty store. -/
theorem addDiscounts_upsert_idempotent_witness :
    ((AddDiscounts (AddDiscounts [] [testDiscountA]) [testDiscountA]).filter
      (fun s => matchKey s testDiscountA)).length = 1 :=
  (addDiscounts_upsert_idempotent [] testDiscountA (by decide)).1

/-- Witness for C6 at a concrete city with two same-titled discounts from
two markets: the first stored one is the returned representative. -/
theorem getDiscountsByCity_dedup_by_title_witness :
    ([testDiscountA, testDiscountB].filter
        (fun d' => (GetAllMarketIDsByCity [testMarket1, testMarket2] "Konstanz").contains
          d'.internalMarketId)).find? (fun d' => d'.title == testDiscountA.title)
      = some testDiscountA :=
  (getDiscountsByCity_dedup_by_title [testMarket1, testMarket2]
      [testDiscountA, testDiscountB] "Konstanz" [testDiscountA] (by decide)).2.1
    testDiscountA (by decide)

/-- Witness for C7: market m1 fails, market m2's discount still appears. -/
theorem getDiscountsByCityFromAPI_failure_isolation_witness :
    testDiscountB ∈ GetDiscountsByCityFromAPI (.ok [testMarket1, testMarket2]) testFetch :=
  getDiscountsByCityFromAPI_failure_isolation [testMarket1, testMarket2] testFetch
    testMarket1 "down" testMarket2 [testDiscountB] testDiscountB
    (by decide) rfl (by decide) rfl (by decide)

/-- Witness for C8 at a city with no markets. -/
theorem getDiscountsByCity_notFound_iff_no_markets_witness :
    GetDiscountsByCity ([] : List Market) ([] : List Discount) "Konstanz"
      = ([], some ("No markets found for " ++ "Konstanz")) :=
  (getDiscountsByCity_notFound_iff_no_markets [] [] "Konstanz").2 rfl

/-- A step whose single step item references the unknown item id 9. -/
def testDanglingStep : Step :=
  { description := "mix",
    items := [{ itemID := 9, amount := 1, unit := "g", item := emptyItem }],
    imgUrl := "", duration := 0, additional := none }

/-- A recipe with one step referencing the unknown item id 9. -/
def testDanglingRecipe : Recipe :=
  { id := 6, name := "Soup", author := "a", description := "", items := [],
    steps := [testDanglingStep],
    props := { url := "", imgUrl := "", duration := 0, createdAt := 0, tags := [], likes := 0 },
    deleted := false }

/-- Witness for C9: the step item referencing unknown id 9 hydrates to the
zero placeholder item and its recipe read still succeeds. -/
theorem mapItemIdsToItem_placeholder_witness :
    hydrateStep (buildItemsById [testFlour1]) testDanglingStep
      ∈ (MapItemIdsToItem [testFlour1] testDanglingRecipe).steps ∧
    ({ itemID := 9, amount := 1, unit := "g", item := emptyItem } : StepItem)
      ∈ (hydrateStep (buildItemsById [testFlour1]) testDanglingStep).items :=
  (mapItemIdsToItem_placeholder [testFlour1] testDanglingRecipe testDanglingStep
      { itemID := 9, amount := 1, unit := "g", item := emptyItem }
      (by decide) (by decide)).1 (by decide)

/-- A concrete frontend recipe containing item id a. -/
def testFrontendRecipe : FrontendRecipe := { itemIds := ["a"] }

/-- A query entry on item a with undefined exclude. -/
def testEntry : ItemQuery := { id := some "a", exclude := none }

/-- Witness for C10: the undefined-exclude entry can be dropped from a
concrete query without changing the verdict. -/
theorem filterRecipeByItems_undefined_exclude_witness :
    filterRecipeByItems testFrontendRecipe ([] ++ testEntry :: [])
      = filterRecipeByItems testFrontendRecipe ([] ++ []) :=
  (filterRecipeByItems_undefined_exclude testFrontendRecipe [] [] testEntry rfl).2

end TasteBuddy
